import Mathlib

/-
  Verification of the client-side real-time monitoring core of the
  smart_city_traffic_overview dashboard.

  Shallow embedding of:
  * the event multiplexer (src/services/web-dashboard/src/contexts/WebSocketContext.tsx:
    `broadcast`, `subscribe` and the returned unsubscribe closure, `ws.onmessage`),
  * the resilient stream player (src/unnamed/part_009, second VideoPlayer:
    `attemptReconnect`, `handleError`, `handleReady`, `handleManualRetry`),
  * the overlay renderer (src/services/web-dashboard/src/components/ui/Gauge.tsx,
    `VideoOverlay` draw effect),
  * the triage validation workflow (TriageInterface in
    src/services/web-dashboard/src/components/layout/README.md bundle, and
    `api.fetchNextImage` / `api.submitValidation` in the WebSocketContext.tsx bundle).

  JavaScript numbers are modelled as rationals, JS `Map` as an insertion-ordered
  association list with unique keys, JS `Set` as an insertion-ordered duplicate-free
  list.  Callbacks are identified by natural numbers; "the callback was invoked with
  the event" is modelled by membership in the computed delivery list.
-/

namespace SmartCityCore

/-! ## Event multiplexer: subscription registry

The source keeps `subscribersRef : Map<string | null, Set<callback>>`.
A topic is a camera id (`some id`) or the wildcard key `null` (`none`). -/

/-- A routing key of the multiplexer: `none` is the JS `null` wildcard key,
`some id` a camera identifier. -/
abbrev Topic := Option String

/-- The subscription registry: JS `Map<string | null, Set<cb>>` as an
insertion-ordered association list; each `Set` is an insertion-ordered,
duplicate-free list of callback identifiers. -/
abbrev Registry := List (Topic × List ℕ)

/-- JS `Map.get`. -/
def regGet : Registry → Topic → Option (List ℕ)
  | [], _ => none
  | (t', s) :: rest, t => if t' = t then some s else regGet rest t

/-- JS `Map.set`: update in place when the key exists, append otherwise. -/
def regSet : Registry → Topic → List ℕ → Registry
  | [], t, s => [(t, s)]
  | (t', s') :: rest, t, s =>
      if t' = t then (t, s) :: rest else (t', s') :: regSet rest t s

/-- JS `Map.delete`: removes the (unique) entry for the key, if present. -/
def regDelete : Registry → Topic → Registry
  | [], _ => []
  | (t', s') :: rest, t => if t' = t then rest else (t', s') :: regDelete rest t

/-- JS `Set.add`: a no-op when the element is already present, otherwise
appended at the end (insertion order). -/
def setAdd (s : List ℕ) (c : ℕ) : List ℕ :=
  if c ∈ s then s else s ++ [c]

/-- JS `Set.delete`: removes the element.  On a duplicate-free list this is
exactly `filter`. -/
def setDelete (s : List ℕ) (c : ℕ) : List ℕ :=
  s.filter (fun x => x ≠ c)

/-- The set registered under a topic (`∅` when the key is absent); this is what
`subscribersRef.current.get(k)` yields, with absence read as the empty set. -/
def lookupSubs (r : Registry) (t : Topic) : List ℕ :=
  (regGet r t).getD []

/-- `subscribe` (WebSocketContext.tsx lines 119-124): ensure the topic has an
entry, then add the callback to its set. -/
def subscribe (r : Registry) (t : Topic) (c : ℕ) : Registry :=
  let r1 := if (regGet r t).isSome then r else regSet r t []
  regSet r1 t (setAdd (lookupSubs r1 t) c)

/-- The unsubscribe closure returned by `subscribe` (WebSocketContext.tsx lines
126-132): `subs?.delete(callback); if (subs?.size === 0) delete(cameraId)`. -/
def dispose (r : Registry) (t : Topic) (c : ℕ) : Registry :=
  match regGet r t with
  | none => r
  | some s =>
      let s' := setDelete s c
      if s'.length = 0 then regDelete (regSet r t s') t else regSet r t s'

/-! ## Typed events (src/unnamed/part_008, types/events.ts) -/

/-- `EventType` from types/events.ts. -/
inductive EventType
  | detection
  | anomaly
  | alert
  | system
deriving DecidableEq, Repr

/-- A `Detection` record (types/events.ts): class label, confidence, normalized
bounding box `[x, y, w, h]`.  `class` is a Lean keyword, rendered `cls`. -/
structure Detection where
  cls : String
  confidence : ℚ
  bx : ℚ
  by' : ℚ
  bw : ℚ
  bh : ℚ
deriving DecidableEq, Repr

/-- `DetectionEvent` from types/events.ts (camera-scoped member of the union). -/
structure DetectionEventT where
  id : String
  cameraId : String
  eventType : EventType
  message : String
  detections : List Detection
deriving DecidableEq, Repr

/-- `SystemMetricEvent` from types/events.ts; its `eventType` is the fixed tag
`"system"`, so it is not a field here. -/
structure SystemMetricEventT where
  id : String
  metricType : String
  value : ℚ
  unit : String
  status : String
deriving DecidableEq, Repr

/-- `AppEvent = DetectionEvent | SystemMetricEvent`. -/
inductive AppEvent
  | det (e : DetectionEventT)
  | sysm (e : SystemMetricEventT)
deriving DecidableEq, Repr

/-- The runtime discriminator `event.eventType`. -/
def AppEvent.eventType : AppEvent → EventType
  | .det e => e.eventType
  | .sysm _ => .system

/-- The camera identifier of a camera-scoped event (`none` on the system
variant, which carries no `cameraId`). -/
def AppEvent.cameraIdOf : AppEvent → Option String
  | .det e => some e.cameraId
  | .sysm _ => none

/-- `broadcast` (WebSocketContext.tsx lines 105-117) as the list of
(subscription topic, callback) pairs the event is delivered to, in delivery
order: wildcard subscribers first, then — when `event.eventType !== "system"` —
the subscribers registered under the event's `cameraId`.  Tagging each
invocation with the topic it is delivered through lets the theorems account
deliveries per subscription. -/
def broadcastDeliveries (r : Registry) (e : AppEvent) : List (Topic × ℕ) :=
  (lookupSubs r none).map (fun c => ((none : Topic), c)) ++
    (if e.eventType ≠ EventType.system then
      match e with
      | .det d => (lookupSubs r (some d.cameraId)).map (fun c => ((some d.cameraId : Topic), c))
      | .sysm _ => []
    else [])

/-! ## Registry well-formedness

Invariants the source maintains by construction: `Map` keys are unique, each
`Set` is duplicate-free, and (per the unsubscribe closure) no entry holds an
empty set. -/

/-- Well-formed registry: unique keys, duplicate-free sets, no empty entry. -/
def WF (r : Registry) : Prop :=
  (r.map Prod.fst).Nodup ∧ (∀ p ∈ r, List.Nodup p.2) ∧ (∀ p ∈ r, p.2 ≠ [])

instance : DecidablePred WF := fun r => by
  unfold WF; infer_instance

/-! ## Delivery iteration with reentrant unsubscription

`broadcast` iterates a live JS `Set` with `forEach` while a callback may
unsubscribe other callbacks of the same registry.  Per the JS semantics,
`forEach` visits, in insertion order, every element that is still present in
the set when it is reached: an element deleted after iteration begins and
before being visited is not visited.  Since the effects modelled here are
unsubscriptions only, the set never grows during iteration, and that semantics
coincides with repeatedly visiting the first not-yet-visited element of the
current set (deletion by `filter` preserves relative order).  The callback
behaviour is a map from callback id to the list of `(topic, callback)`
unsubscriptions it performs when invoked. -/

/-- Apply a list of unsubscribe-closure calls to the registry. -/
def applyDisposals : Registry → List (Topic × ℕ) → Registry
  | r, [] => r
  | r, (t, c) :: rest => applyDisposals (dispose r t c) rest

/-- First element of the set, in insertion order, that has not been visited. -/
def firstUnvisited : List ℕ → List ℕ → Option ℕ
  | [], _ => none
  | c :: rest, visited => if c ∈ visited then firstUnvisited rest visited else some c

/-- One topic's `subs.forEach((cb) => cb(event))` with live mutation: at each
step the next still-present unvisited callback is invoked (its unsubscriptions
applied to the registry) and recorded in the visit log.  `fuel` bounds the
number of steps; `publishTopic` supplies the initial set size, which suffices
because unsubscription-only effects never grow the set. -/
def forEachLoop (effects : ℕ → List (Topic × ℕ)) (t : Topic) :
    ℕ → Registry → List ℕ → Registry × List ℕ
  | 0, r, visited => (r, visited)
  | fuel + 1, r, visited =>
      match firstUnvisited (lookupSubs r t) visited with
      | none => (r, visited)
      | some c => forEachLoop effects t fuel (applyDisposals r (effects c)) (visited ++ [c])

/-- Delivery of one event to the subscribers of one topic, with reentrant
unsubscription; returns the final registry and the invocation log (the
callbacks that received the event, in order). -/
def publishTopic (effects : ℕ → List (Topic × ℕ)) (t : Topic) (r : Registry) :
    Registry × List ℕ :=
  forEachLoop effects t (lookupSubs r t).length r []

/-! ## Raw ingress (`ws.onmessage`, WebSocketContext.tsx lines 165-177)

The live ingress handler runs `JSON.parse` in a `try`, casts the result to
`AppEvent` without any schema validation (the source notes "We need to type
guard this in real app"), and broadcasts it; a thrown parse error is caught and
logged.  TypeScript types are erased at runtime, so this path is modelled on a
JSON value type; the host's `JSON.parse` outcome is the handler's input
(`none` = the message was not valid JSON and `JSON.parse` threw). -/

/-- A parsed JSON value. -/
inductive JsonVal
  | null
  | bool (b : Bool)
  | num (q : ℚ)
  | str (s : String)
  | arr (xs : List JsonVal)
  | obj (fields : List (String × JsonVal))

/-- First-match field lookup in a JSON object's field list. -/
def jLookup : List (String × JsonVal) → String → Option JsonVal
  | [], _ => none
  | (k', v) :: rest, k => if k' = k then some v else jLookup rest k

/-- JS property access `value[key]` (`none` = `undefined`). -/
def jGet : JsonVal → String → Option JsonVal
  | .obj fields, k => jLookup fields k
  | _, _ => none

/-- The runtime check `event.eventType !== "system"`, negated: `true` exactly
when the `eventType` property is the string `"system"`. -/
def isSystemJ (e : JsonVal) : Bool :=
  match jGet e "eventType" with
  | some (.str s) => s = "system"
  | _ => false

/-- The registry key that `get(camEvent.cameraId)` looks up on the camera leg:
a string `cameraId` is the key `some s`, and a JSON `null` `cameraId` is the
JS `null` key — i.e. exactly the wildcard key `none`, so such a payload hits
the wildcard set a second time.  A missing (`undefined`) or non-string,
non-null `cameraId` equals no registry key (keys are JS strings or `null`),
hence no key (`Option.none` at the outer level). -/
def camKeyJ (e : JsonVal) : Option Topic :=
  match jGet e "cameraId" with
  | some (.str s) => some (some s)
  | some .null => some none
  | _ => none

/-- `broadcast` applied to a raw (unvalidated) inbound value: wildcard
subscribers, then — unless the value's `eventType` is `"system"` — the
subscribers registered under the key `camEvent.cameraId` (which for a `null`
`cameraId` is the wildcard key itself). -/
def deliverRaw (r : Registry) (e : JsonVal) : List (Topic × ℕ) :=
  (lookupSubs r none).map (fun c => ((none : Topic), c)) ++
    (if isSystemJ e then []
     else match camKeyJ e with
       | some k => (lookupSubs r k).map (fun c => (k, c))
       | none => [])

/-- `ws.onmessage`: input is the host `JSON.parse` outcome; result is the
delivery list and whether a parse error was logged.  A parse failure is caught
inside the handler (nothing escapes), logged, and nothing is delivered; a
successfully parsed value is broadcast without schema validation. -/
def onMessage (r : Registry) (parsed : Option JsonVal) : List (Topic × ℕ) × Bool :=
  match parsed with
  | none => ([], true)
  | some j => (deliverRaw r j, false)

/-- The handler applied to a whole inbound stream: the registry is not mutated
by `onmessage`, so messages are handled independently and in order. -/
def processAll (r : Registry) (msgs : List (Option JsonVal)) : List (List (Topic × ℕ)) :=
  msgs.map (fun m => (onMessage r m).1)

/-- Is the value a JSON string? -/
def jIsStr : Option JsonVal → Bool
  | some (.str _) => true
  | _ => false

/-- Is the value a JSON number? -/
def jIsNum : Option JsonVal → Bool
  | some (.num _) => true
  | _ => false

/-- A well-formed `Detection` record per types/events.ts (src/unnamed/part_008)
and spec section 6: class label, numeric confidence, bbox of four numbers. -/
def isDetectionRecordJson (j : JsonVal) : Bool :=
  jIsStr (jGet j "class") && jIsNum (jGet j "confidence") &&
    (match jGet j "bbox" with
     | some (.arr [.num _, .num _, .num _, .num _]) => true
     | _ => false)

/-- The expected inbound event schema, from types/events.ts and spec section 6:
either a camera-scoped event (string `id`, string `cameraId`, `eventType` one of
`detection`/`anomaly`/`alert`, and any `detections` being an array of
well-formed detection records) or a system event (string `id`, `eventType`
`"system"`, string `metricType`, numeric `value`, string `unit`, string
`status`).  Used to state what "fails to parse against the expected schema"
means; the ingress handler itself performs no such check. -/
def isValidEventJson (j : JsonVal) : Bool :=
  (jIsStr (jGet j "id") && jIsStr (jGet j "cameraId") &&
    (match jGet j "eventType" with
     | some (.str s) => s = "detection" || s = "anomaly" || s = "alert"
     | _ => false) &&
    (match jGet j "detections" with
     | none => true
     | some (.arr xs) => xs.all isDetectionRecordJson
     | _ => false)) ||
  (jIsStr (jGet j "id") &&
    (match jGet j "eventType" with
     | some (.str s) => s = "system"
     | _ => false) &&
    jIsStr (jGet j "metricType") && jIsNum (jGet j "value") &&
    jIsStr (jGet j "unit") && jIsStr (jGet j "status"))

/-! ## Resilient stream player (src/unnamed/part_009, second `VideoPlayer`)

State fields mirror the component's `useState` hooks plus the single
`reconnectTimeoutRef` timer (recorded with its scheduled delay in ms). -/

/-- Player component state. -/
structure PlayerState where
  isPlaying : Bool
  isLoading : Bool
  error : Bool
  retryCount : ℕ
  reconnectTimeout : Option ℕ
deriving DecidableEq, Repr

/-- The fresh player: `useState` initial values, no timer scheduled. -/
def freshPlayer : PlayerState :=
  { isPlaying := false, isLoading := true, error := false,
    retryCount := 0, reconnectTimeout := none }

/-- `Math.min(Math.pow(2, retryCount) * 1000, 30000)` (part_009 line 265). -/
def backoffDelayMs (retryCount : ℕ) : ℕ :=
  min (2 ^ retryCount * 1000) 30000

/-- `attemptReconnect` (part_009 lines 263-279): computes the backoff delay
from the current attempt counter and schedules the single reconnect timer. -/
def attemptReconnect (st : PlayerState) : PlayerState :=
  { st with reconnectTimeout := some (backoffDelayMs st.retryCount) }

/-- `handleError` (part_009 lines 281-287): records the error state and calls
`attemptReconnect`. -/
def handleError (st : PlayerState) : PlayerState :=
  attemptReconnect { st with error := true, isLoading := false, isPlaying := false }

/-- The scheduled timer firing (the `setTimeout` body, part_009 lines 269-277):
clears the error, re-enters loading, and increments the attempt counter. -/
def reconnectTimerFires (st : PlayerState) : PlayerState :=
  match st.reconnectTimeout with
  | none => st
  | some _ =>
      { st with error := false, isLoading := true,
                retryCount := st.retryCount + 1, reconnectTimeout := none }

/-- `handleReady` (part_009 lines 255-261): successful (re)connection; resets
the attempt counter to zero. -/
def handleReady (st : PlayerState) : PlayerState :=
  { st with isLoading := false, error := false, isPlaying := true, retryCount := 0 }

/-- `handleManualRetry` (part_009 lines 289-294): cancels any pending backoff
timer, resets the attempt counter, re-attempts without delay. -/
def handleManualRetry (st : PlayerState) : PlayerState :=
  { st with reconnectTimeout := none, retryCount := 0, error := false, isLoading := true }

/-- `k` consecutive failure cycles: each cycle is a fatal transport fault
(`handleError`, which schedules the timer) followed by the timer firing. -/
def failCycles : ℕ → PlayerState → PlayerState
  | 0, st => st
  | k + 1, st => failCycles k (reconnectTimerFires (handleError st))

/-! ## Overlay renderer (`VideoOverlay`, Gauge.tsx bundle lines 113-180)

The draw effect is modelled as the list of 2d-context commands it issues, in
order.  `measureText` is a host text metric, passed in as a function. -/

/-- A 2d-context drawing command issued by the overlay redraw. -/
inductive DrawCmd
  | clearRect (x y w h : ℚ)
  | strokeRect (x y w h : ℚ)
  | fillRect (x y w h : ℚ)
  | fillText (text : String) (x y : ℚ)
deriving DecidableEq, Repr

/-- The box label: `det.class ++ " " ++ (det.confidence * 100).toFixed(0) ++ "%"`.
For the nonnegative confidences involved, `toFixed(0)` is round-to-nearest with
ties up, which is Mathlib's `round`. -/
def labelText (d : Detection) : String :=
  d.cls ++ " " ++ toString (round (d.confidence * 100)) ++ "%"

/-- The commands drawn for one detection (the `forEach` body, lines 140-166):
the rectangle at the scaled coordinates, the label background, the label text.
No clamping is applied to any coordinate. -/
def drawDetection (measure : String → ℚ) (d : Detection) (width height : ℚ) :
    List DrawCmd :=
  let x := d.bx * width
  let y := d.by' * height
  let w := d.bw * width
  let h := d.bh * height
  let label := labelText d
  [DrawCmd.strokeRect x y w h,
   DrawCmd.fillRect x (y - 12 - 4) (measure label + 8) (12 + 4),
   DrawCmd.fillText label (x + 4) (y - 4)]

/-- The whole redraw effect: clear the full surface, return early on an empty
detection list, otherwise draw every detection. -/
def redraw (measure : String → ℚ) (dets : List Detection) (width height : ℚ) :
    List DrawCmd :=
  [DrawCmd.clearRect 0 0 width height] ++
    (if dets.isEmpty then []
     else (dets.map (fun d => drawDetection measure d width height)).flatten)

/-! ## Triage workflow (TriageInterface and `api`) -/

/-- `TriageTask` (api bundle lines 227-233). -/
structure TriageTask where
  id : String
  imageUrl : String
  currentLabel : String
  confidence : ℚ
  bbox : ℚ × ℚ × ℚ × ℚ
deriving DecidableEq, Repr

/-- `BackendTriageItem` (api bundle lines 236-243): the raw queue item; `null`
fields are `none`. -/
structure BackendTriageItem where
  id : String
  image_path : String
  current_label : Option String
  confidence : Option ℚ
  created_at : String
  camera_id : Option String
deriving DecidableEq, Repr

/-- The adapter inside `api.fetchNextImage` (lines 261-284): random mock bbox
and confidence are inputs here; `current_label || "unknown"` maps JS-falsy
(null or empty string) labels to `"unknown"`; `confidence ?? mock` replaces
only a null confidence. -/
def adaptTriageItem (item : BackendTriageItem) (mockBbox : ℚ × ℚ × ℚ × ℚ)
    (mockConfidence : ℚ) : TriageTask :=
  { id := item.id
    imageUrl := item.image_path
    currentLabel :=
      match item.current_label with
      | some l => if l = "" then "unknown" else l
      | none => "unknown"
    confidence := item.confidence.getD mockConfidence
    bbox := mockBbox }

/-- `api.fetchNextImage` (lines 246-290) over the queue response: a transport
failure (non-ok response or rejected fetch) is rethrown (`Except.error`), an
empty queue yields `null`, otherwise the first item is adapted. -/
def fetchNextImage (queue : Except Unit (List BackendTriageItem))
    (mockBbox : ℚ × ℚ × ℚ × ℚ) (mockConfidence : ℚ) :
    Except Unit (Option TriageTask) :=
  match queue with
  | .error e => .error e
  | .ok [] => .ok none
  | .ok (item :: _) => .ok (some (adaptTriageItem item mockBbox mockConfidence))

/-- The ValidationSubmission: task id plus the POST body
`{verified, correct_label}` built by `api.submitValidation` (lines 292-303). -/
structure ValidationSubmission where
  taskId : String
  verified : Bool
  correct_label : String
deriving DecidableEq, Repr

/-- `api.submitValidation`'s body: `correct_label` is the current label when
verified, the fixed string `"rejected_class"` otherwise. -/
def submitValidation (id : String) (verified : Bool) (currentLabel : String) :
    ValidationSubmission :=
  { taskId := id, verified := verified,
    correct_label := if verified then currentLabel else "rejected_class" }

/-- What `TriageInterface` renders (lines 89-216), keyed by the three branches:
the loading spinner, the combined failure/empty fallback with its message and
retry button, or the task view. -/
inductive TriageView
  | loadingView
  | fallbackView (message : String) (hasRetry : Bool)
  | taskView (t : TriageTask)
deriving DecidableEq, Repr

/-- The render dispatch of `TriageInterface`:
`if (isLoading) ...; if (isError || !task) ...; else task view`. -/
def triageRender (isLoading isError : Bool) (task : Option TriageTask) : TriageView :=
  if isLoading then .loadingView
  else
    match task with
    | none => .fallbackView "Failed to load task or queue empty." true
    | some t => if isError then .fallbackView "Failed to load task or queue empty." true
                else .taskView t

/-- The observable state of the triage workflow: the current query data
(`task`), `mutation.isPending`, the visual `feedback`, the scheduled-but-not-
yet-fired `setTimeout` callbacks with the task and flag their closures
captured, the submissions issued so far, and the session counters. -/
structure TriageState where
  task : Option TriageTask
  isPending : Bool
  feedback : Option Bool
  timeouts : List (TriageTask × Bool)
  sent : List ValidationSubmission
  validatedCount : ℕ
  invalidations : ℕ
deriving DecidableEq, Repr

/-- A `ready` state: a task is displayed, no mutation pending, nothing
scheduled or sent yet. -/
def readyState (t : TriageTask) : TriageState :=
  { task := some t, isPending := false, feedback := none, timeouts := [],
    sent := [], validatedCount := 0, invalidations := 0 }

/-- `handleValidation` (TriageInterface lines 47-56): guarded by
`!task || mutation.isPending`; sets the visual feedback and schedules a 200 ms
`setTimeout` whose closure captures the current task and flag.  Note the guard
reads `mutation.isPending`, which only becomes true when the timeout later
calls `mutation.mutate`. -/
def handleValidation (st : TriageState) (verified : Bool) : TriageState :=
  match st.task with
  | none => st
  | some task =>
      if st.isPending then st
      else { st with feedback := some verified,
                     timeouts := st.timeouts ++ [(task, verified)] }

/-- `handleSkip` (lines 58-61): guarded by `mutation.isPending` only;
invalidates the query (scheduling a refetch), submits nothing. -/
def handleSkip (st : TriageState) : TriageState :=
  if st.isPending then st
  else { st with invalidations := st.invalidations + 1 }

/-- The earliest scheduled `setTimeout` firing: `mutation.mutate` runs, turning
`isPending` on and issuing the submission built by `api.submitValidation` from
the captured task and flag. -/
def fireTimeout (st : TriageState) : TriageState :=
  match st.timeouts with
  | [] => st
  | (task, verified) :: rest =>
      { st with timeouts := rest, isPending := true,
                sent := st.sent ++ [submitValidation task.id verified task.currentLabel] }

/-- The mutation's `onSuccess` (lines 39-45): bumps the session counter,
invalidates the query to fetch the next task, clears the feedback; the query
data (the displayed task) is unchanged until the refetch resolves. -/
def onMutationSuccess (st : TriageState) : TriageState :=
  { st with isPending := false, feedback := none,
            validatedCount := st.validatedCount + 1,
            invalidations := st.invalidations + 1 }

/-- The refetch resolving with the next task (or none). -/
def loadTask (st : TriageState) (t : Option TriageTask) : TriageState :=
  { st with task := t }

/-! ### Basic registry lemmas -/

theorem regGet_regSet_self (r : Registry) (t : Topic) (s : List ℕ) :
    regGet (regSet r t s) t = some s := by
  induction r with
  | nil => simp [regSet, regGet]
  | cons p rest ih =>
      by_cases h : p.1 = t
      · simp [regSet, regGet, h]
      · simp [regSet, regGet, h, ih]

theorem regGet_regSet_ne (r : Registry) {t t' : Topic} (s : List ℕ) (h : t' ≠ t) :
    regGet (regSet r t s) t' = regGet r t' := by
  have ht : t ≠ t' := Ne.symm h
  induction r with
  | nil => simp [regSet, regGet, ht]
  | cons p rest ih =>
      obtain ⟨pt, ps⟩ := p
      by_cases hp : pt = t
      · subst hp
        simp [regSet, regGet, ht]
      · simp [regSet, regGet, hp, ih]

theorem regSet_of_regGet_eq (r : Registry) (t : Topic) (s : List ℕ)
    (h : regGet r t = some s) : regSet r t s = r := by
  induction r with
  | nil => simp [regGet] at h
  | cons p rest ih =>
      obtain ⟨pt, ps⟩ := p
      by_cases hp : pt = t
      · subst hp
        simp [regGet] at h
        simp [regSet, h]
      · simp [regGet, hp] at h
        simp [regSet, hp, ih h]

theorem regSet_append_of_regGet_none (r : Registry) (t : Topic) (s : List ℕ)
    (h : regGet r t = none) : regSet r t s = r ++ [(t, s)] := by
  induction r with
  | nil => simp [regSet]
  | cons p rest ih =>
      by_cases hp : p.1 = t
      · simp [regGet, hp] at h
      · simp [regGet, hp] at h
        simp [regSet, hp, ih h]

theorem regGet_append_of_regGet_none (r l : Registry) (t : Topic)
    (h : regGet r t = none) : regGet (r ++ l) t = regGet l t := by
  induction r with
  | nil => simp
  | cons p rest ih =>
      by_cases hp : p.1 = t
      · simp [regGet, hp] at h
      · simp [regGet, hp] at h ⊢
        exact ih h

theorem regDelete_append_of_regGet_none (r : Registry) (t : Topic) (s : List ℕ)
    (h : regGet r t = none) : regDelete (r ++ [(t, s)]) t = r := by
  induction r with
  | nil => simp [regDelete]
  | cons p rest ih =>
      by_cases hp : p.1 = t
      · simp [regGet, hp] at h
      · simp [regGet, hp] at h
        simp [regDelete, hp, ih h]

theorem regGet_eq_none_iff (r : Registry) (t : Topic) :
    regGet r t = none ↔ t ∉ r.map Prod.fst := by
  induction r with
  | nil => simp [regGet]
  | cons p rest ih =>
      obtain ⟨pt, ps⟩ := p
      by_cases hp : pt = t
      · subst hp
        simp [regGet]
      · simp [regGet, hp, ih, Ne.symm hp]

theorem regGet_mem (r : Registry) (t : Topic) (s : List ℕ)
    (h : regGet r t = some s) : (t, s) ∈ r := by
  induction r with
  | nil => simp [regGet] at h
  | cons p rest ih =>
      obtain ⟨pt, ps⟩ := p
      by_cases hp : pt = t
      · subst hp
        simp [regGet] at h
        simp [h]
      · simp [regGet, hp] at h
        exact List.mem_cons_of_mem _ (ih h)

theorem mem_regSet (r : Registry) (t : Topic) (s : List ℕ) (p : Topic × List ℕ)
    (h : p ∈ regSet r t s) : p = (t, s) ∨ p ∈ r := by
  induction r with
  | nil => simpa [regSet] using h
  | cons q rest ih =>
      obtain ⟨qt, qs⟩ := q
      by_cases hq : qt = t
      · subst hq
        simp [regSet] at h
        rcases h with h | h
        · exact Or.inl h
        · exact Or.inr (List.mem_cons_of_mem _ h)
      · simp [regSet, hq] at h
        rcases h with h | h
        · exact Or.inr (by simp [h])
        · rcases ih h with h' | h'
          · exact Or.inl h'
          · exact Or.inr (List.mem_cons_of_mem _ h')

theorem map_fst_regSet_of_isSome (r : Registry) (t : Topic) (s : List ℕ)
    (h : (regGet r t).isSome) : (regSet r t s).map Prod.fst = r.map Prod.fst := by
  induction r with
  | nil => simp [regGet] at h
  | cons q rest ih =>
      obtain ⟨qt, qs⟩ := q
      by_cases hq : qt = t
      · subst hq
        simp [regSet]
      · simp [regGet, hq] at h
        simp [regSet, hq, ih h]

theorem regDelete_sublist (r : Registry) (t : Topic) : (regDelete r t).Sublist r := by
  induction r with
  | nil => simp [regDelete]
  | cons q rest ih =>
      obtain ⟨qt, qs⟩ := q
      by_cases hq : qt = t
      · simp [regDelete, hq]
      · simpa [regDelete, hq] using ih

theorem regDelete_regSet (r : Registry) (t : Topic) (s : List ℕ) :
    regDelete (regSet r t s) t = regDelete r t := by
  induction r with
  | nil => simp [regSet, regDelete]
  | cons q rest ih =>
      obtain ⟨qt, qs⟩ := q
      by_cases hq : qt = t
      · subst hq
        simp [regSet, regDelete]
      · simp [regSet, regDelete, hq, ih]

theorem regGet_regDelete_ne (r : Registry) {t t' : Topic} (h : t' ≠ t) :
    regGet (regDelete r t) t' = regGet r t' := by
  induction r with
  | nil => simp [regDelete]
  | cons q rest ih =>
      obtain ⟨qt, qs⟩ := q
      by_cases hq : qt = t
      · subst hq
        simp [regDelete, regGet, Ne.symm h]
      · simp [regDelete, regGet, hq, ih]

theorem regGet_regDelete_self (r : Registry) (t : Topic)
    (h : (r.map Prod.fst).Nodup) : regGet (regDelete r t) t = none := by
  induction r with
  | nil => simp [regDelete, regGet]
  | cons q rest ih =>
      obtain ⟨qt, qs⟩ := q
      rw [List.map_cons, List.nodup_cons] at h
      by_cases hq : qt = t
      · subst hq
        simp [regDelete]
        exact (regGet_eq_none_iff rest qt).mpr h.1
      · simp [regDelete, regGet, hq]
        exact ih h.2

/-! ### Set operation lemmas -/

theorem mem_setAdd (s : List ℕ) (c x : ℕ) : x ∈ setAdd s c ↔ x ∈ s ∨ x = c := by
  by_cases h : c ∈ s
  · simp only [setAdd, if_pos h]
    constructor
    · exact Or.inl
    · rintro (hx | rfl)
      · exact hx
      · exact h
  · simp [setAdd, h]

theorem setAdd_nodup (s : List ℕ) (c : ℕ) (h : s.Nodup) : (setAdd s c).Nodup := by
  by_cases hc : c ∈ s
  · simpa [setAdd, hc] using h
  · rw [setAdd, if_neg hc]
    refine List.Nodup.append h (by simp) ?_
    intro a ha hb
    simp at hb
    subst hb
    exact hc ha

theorem setAdd_ne_nil (s : List ℕ) (c : ℕ) : setAdd s c ≠ [] := by
  by_cases hc : c ∈ s
  · simp [setAdd, hc]
    rintro rfl
    simp at hc
  · simp [setAdd, hc]

theorem mem_setDelete (s : List ℕ) (c x : ℕ) :
    x ∈ setDelete s c ↔ x ∈ s ∧ x ≠ c := by
  simp [setDelete]

theorem setDelete_nodup (s : List ℕ) (c : ℕ) (h : s.Nodup) : (setDelete s c).Nodup :=
  h.filter _

theorem setDelete_of_not_mem (s : List ℕ) (c : ℕ) (h : c ∉ s) :
    setDelete s c = s := by
  refine List.filter_eq_self.mpr ?_
  intro a ha
  simp
  rintro rfl
  exact h ha

theorem setDelete_subset (s : List ℕ) (c : ℕ) : setDelete s c ⊆ s :=
  List.filter_subset' _

/-! ### Well-formedness preservation and lookup characterisation -/

theorem lookupSubs_nodup (r : Registry) (t : Topic) (h : WF r) :
    (lookupSubs r t).Nodup := by
  unfold lookupSubs
  cases hg : regGet r t with
  | none => simp
  | some s =>
      simp
      exact h.2.1 _ (regGet_mem r t s hg)

theorem subscribe_eq_of_some (r : Registry) (t : Topic) (c : ℕ) (s : List ℕ)
    (h : regGet r t = some s) : subscribe r t c = regSet r t (setAdd s c) := by
  simp [subscribe, lookupSubs, h]

theorem regSet_append_last (r : Registry) (t : Topic) (s0 s : List ℕ)
    (h : regGet r t = none) : regSet (r ++ [(t, s0)]) t s = r ++ [(t, s)] := by
  induction r with
  | nil => simp [regSet]
  | cons q rest ih =>
      obtain ⟨qt, qs⟩ := q
      by_cases hq : qt = t
      · simp [regGet, hq] at h
      · simp [regGet, hq] at h
        simp [regSet, hq, ih h]

theorem subscribe_eq_of_none (r : Registry) (t : Topic) (c : ℕ)
    (h : regGet r t = none) : subscribe r t c = r ++ [(t, [c])] := by
  have h1 : regSet r t [] = r ++ [(t, ([] : List ℕ))] :=
    regSet_append_of_regGet_none r t [] h
  have h2 : regGet (r ++ [(t, ([] : List ℕ))]) t = some [] := by
    rw [regGet_append_of_regGet_none r _ t h]
    simp [regGet]
  have h3 := regSet_append_last r t [] [c] h
  simp [subscribe, h, lookupSubs, h1, h2, setAdd, h3]

theorem WF_subscribe (r : Registry) (t : Topic) (c : ℕ) (h : WF r) :
    WF (subscribe r t c) := by
  obtain ⟨hkeys, hnodup, hne⟩ := h
  cases hg : regGet r t with
  | some s =>
      rw [subscribe_eq_of_some r t c s hg]
      have hs : (t, s) ∈ r := regGet_mem r t s hg
      refine ⟨?_, ?_, ?_⟩
      · rw [map_fst_regSet_of_isSome r t _ (by simp [hg])]
        exact hkeys
      · intro p hp
        rcases mem_regSet r t _ p hp with h' | h'
        · subst h'
          exact setAdd_nodup s c (hnodup _ hs)
        · exact hnodup _ h'
      · intro p hp
        rcases mem_regSet r t _ p hp with h' | h'
        · subst h'
          exact setAdd_ne_nil s c
        · exact hne _ h'
  | none =>
      rw [subscribe_eq_of_none r t c hg]
      refine ⟨?_, ?_, ?_⟩
      · rw [List.map_append]
        refine List.Nodup.append hkeys (by simp) ?_
        intro a ha hb
        simp at hb
        subst hb
        exact (regGet_eq_none_iff r _).mp hg ha
      · intro p hp
        simp at hp
        rcases hp with h' | h'
        · exact hnodup _ h'
        · subst h'
          simp
      · intro p hp
        simp at hp
        rcases hp with h' | h'
        · exact hne _ h'
        · subst h'
          simp

theorem dispose_eq_of_none (r : Registry) (t : Topic) (c : ℕ)
    (h : regGet r t = none) : dispose r t c = r := by
  simp [dispose, h]

theorem dispose_eq_delete (r : Registry) (t : Topic) (c : ℕ) (s : List ℕ)
    (h : regGet r t = some s) (h0 : setDelete s c = []) :
    dispose r t c = regDelete r t := by
  simp [dispose, h, h0, regDelete_regSet]

theorem dispose_eq_set (r : Registry) (t : Topic) (c : ℕ) (s : List ℕ)
    (h : regGet r t = some s) (h0 : setDelete s c ≠ []) :
    dispose r t c = regSet r t (setDelete s c) := by
  simp [dispose, h, h0]

theorem WF_regDelete (r : Registry) (t : Topic) (h : WF r) : WF (regDelete r t) := by
  obtain ⟨hkeys, hnodup, hne⟩ := h
  have hsub := regDelete_sublist r t
  exact ⟨hkeys.sublist (hsub.map Prod.fst),
    fun p hp => hnodup _ (hsub.mem hp),
    fun p hp => hne _ (hsub.mem hp)⟩

theorem WF_dispose (r : Registry) (t : Topic) (c : ℕ) (h : WF r) :
    WF (dispose r t c) := by
  cases hg : regGet r t with
  | none => rw [dispose_eq_of_none r t c hg]; exact h
  | some s =>
      by_cases h0 : setDelete s c = []
      · rw [dispose_eq_delete r t c s hg h0]
        exact WF_regDelete r t h
      · rw [dispose_eq_set r t c s hg h0]
        obtain ⟨hkeys, hnodup, hne⟩ := h
        have hs : (t, s) ∈ r := regGet_mem r t s hg
        refine ⟨?_, ?_, ?_⟩
        · rw [map_fst_regSet_of_isSome r t _ (by simp [hg])]
          exact hkeys
        · intro p hp
          rcases mem_regSet r t _ p hp with h' | h'
          · subst h'
            exact setDelete_nodup s c (hnodup _ hs)
          · exact hnodup _ h'
        · intro p hp
          rcases mem_regSet r t _ p hp with h' | h'
          · subst h'
            exact h0
          · exact hne _ h'

theorem lookupSubs_dispose_self (r : Registry) (t : Topic) (c : ℕ) (h : WF r) :
    lookupSubs (dispose r t c) t = setDelete (lookupSubs r t) c := by
  cases hg : regGet r t with
  | none =>
      rw [dispose_eq_of_none r t c hg]
      simp [lookupSubs, hg, setDelete]
  | some s =>
      by_cases h0 : setDelete s c = []
      · rw [dispose_eq_delete r t c s hg h0]
        simp [lookupSubs, regGet_regDelete_self r t h.1, hg, h0]
      · rw [dispose_eq_set r t c s hg h0]
        simp [lookupSubs, regGet_regSet_self, hg]

theorem lookupSubs_dispose_ne (r : Registry) {t t' : Topic} (c : ℕ) (h : t' ≠ t) :
    lookupSubs (dispose r t c) t' = lookupSubs r t' := by
  cases hg : regGet r t with
  | none => rw [dispose_eq_of_none r t c hg]
  | some s =>
      by_cases h0 : setDelete s c = []
      · rw [dispose_eq_delete r t c s hg h0]
        simp [lookupSubs, regGet_regDelete_ne r h]
      · rw [dispose_eq_set r t c s hg h0]
        simp [lookupSubs, regGet_regSet_ne r _ h]

/-! ### Roundtrip and idempotence of the unsubscribe closure -/

theorem regSet_regSet (r : Registry) (t : Topic) (s1 s2 : List ℕ) :
    regSet (regSet r t s1) t s2 = regSet r t s2 := by
  induction r with
  | nil => simp [regSet]
  | cons q rest ih =>
      obtain ⟨qt, qs⟩ := q
      by_cases hq : qt = t
      · subst hq
        simp [regSet]
      · simp [regSet, hq, ih]

theorem dispose_eq_self_of_not_mem (r : Registry) (t : Topic) (c : ℕ)
    (h : WF r) (hc : c ∉ lookupSubs r t) : dispose r t c = r := by
  cases hg : regGet r t with
  | none => exact dispose_eq_of_none r t c hg
  | some s =>
      have hcs : c ∉ s := by
        simpa [lookupSubs, hg] using hc
      have hdel : setDelete s c = s := setDelete_of_not_mem s c hcs
      have hne : s ≠ [] := h.2.2 _ (regGet_mem r t s hg)
      rw [dispose_eq_set r t c s hg (by rw [hdel]; exact hne), hdel]
      exact regSet_of_regGet_eq r t s hg

theorem not_mem_lookupSubs_dispose (r : Registry) (t : Topic) (c : ℕ) (h : WF r) :
    c ∉ lookupSubs (dispose r t c) t := by
  rw [lookupSubs_dispose_self r t c h, mem_setDelete]
  simp

theorem dispose_idem (r : Registry) (t : Topic) (c : ℕ) (h : WF r) :
    dispose (dispose r t c) t c = dispose r t c :=
  dispose_eq_self_of_not_mem _ t c (WF_dispose r t c h)
    (not_mem_lookupSubs_dispose r t c h)

theorem dispose_subscribe (r : Registry) (t : Topic) (c : ℕ) (h : WF r)
    (hc : c ∉ lookupSubs r t) : dispose (subscribe r t c) t c = r := by
  cases hg : regGet r t with
  | some s =>
      have hcs : c ∉ s := by
        simpa [lookupSubs, hg] using hc
      have hadd : setAdd s c = s ++ [c] := by
        simp [setAdd, hcs]
      have hget : regGet (subscribe r t c) t = some (s ++ [c]) := by
        rw [subscribe_eq_of_some r t c s hg, hadd]
        exact regGet_regSet_self r t _
      have hdel : setDelete (s ++ [c]) c = s := by
        have h1 := setDelete_of_not_mem s c hcs
        simp only [setDelete] at h1 ⊢
        rw [List.filter_append, h1]
        simp
      have hne : s ≠ [] := h.2.2 _ (regGet_mem r t s hg)
      rw [dispose_eq_set _ t c _ hget (by rw [hdel]; exact hne), hdel,
        subscribe_eq_of_some r t c s hg, hadd, regSet_regSet]
      exact regSet_of_regGet_eq r t s hg
  | none =>
      have hget : regGet (subscribe r t c) t = some [c] := by
        rw [subscribe_eq_of_none r t c hg,
          regGet_append_of_regGet_none r _ t hg]
        simp [regGet]
      have hdel : setDelete [c] c = [] := by
        simp [setDelete]
      rw [dispose_eq_delete _ t c _ hget hdel, subscribe_eq_of_none r t c hg,
        regDelete_append_of_regGet_none r t [c] hg]

/-! ### Delivery membership and multiplicity -/

theorem mem_broadcastDeliveries (r : Registry) (e : AppEvent) (t : Topic) (c : ℕ)
    (h : (t, c) ∈ broadcastDeliveries r e) : c ∈ lookupSubs r t := by
  unfold broadcastDeliveries at h
  rw [List.mem_append] at h
  rcases h with h | h
  · obtain ⟨x, hx, hxx⟩ := List.mem_map.mp h
    obtain ⟨h1, h2⟩ := Prod.mk.injEq .. ▸ hxx
    subst h2
    rw [← h1]
    exact hx
  · split at h
    · cases e with
      | det d =>
          obtain ⟨x, hx, hxx⟩ := List.mem_map.mp h
          obtain ⟨h1, h2⟩ := Prod.mk.injEq .. ▸ hxx
          subst h2
          rw [← h1]
          exact hx
      | sysm s => simp at h
    · simp at h

theorem count_pair_map (l : List ℕ) (t t' : Topic) (c : ℕ) :
    ((l.map fun x => ((t : Topic), x)).count (t', c)) =
      if t' = t then l.count c else 0 := by
  by_cases h : t' = t
  · subst h
    induction l with
    | nil => simp
    | cons a rest ih =>
        by_cases hac : a = c
        · subst hac
          simp [List.count_cons, ih]
        · simp [List.count_cons, ih, hac]
  · rw [if_neg h, List.count_eq_zero]
    intro hmem
    obtain ⟨x, _, hxx⟩ := List.mem_map.mp hmem
    exact h ((Prod.mk.injEq .. ▸ hxx).1.symm)

theorem broadcastDeliveries_count_le_one (r : Registry) (e : AppEvent)
    (h : WF r) (t : Topic) (c : ℕ) :
    (broadcastDeliveries r e).count (t, c) ≤ 1 := by
  have hwild := lookupSubs_nodup r none h
  unfold broadcastDeliveries
  rw [List.count_append]
  rcases ht : t with _ | id
  · rw [count_pair_map, if_pos rfl]
    have h1 : (lookupSubs r none).count c ≤ 1 :=
      List.nodup_iff_count_le_one.mp hwild c
    have h2 : (if e.eventType ≠ EventType.system then
        match e with
        | .det d => (lookupSubs r (some d.cameraId)).map
            (fun c => ((some d.cameraId : Topic), c))
        | .sysm _ => []
      else []).count ((none : Topic), c) = 0 := by
      split
      · cases e with
        | det d => rw [count_pair_map, if_neg (by simp)]
        | sysm s => simp
      · simp
    omega
  · rw [count_pair_map, if_neg (by simp)]
    have h2 : (if e.eventType ≠ EventType.system then
        match e with
        | .det d => (lookupSubs r (some d.cameraId)).map
            (fun c => ((some d.cameraId : Topic), c))
        | .sysm _ => []
      else []).count ((some id : Topic), c) ≤ 1 := by
      split
      · cases e with
        | det d =>
            rw [count_pair_map]
            split
            · exact List.nodup_iff_count_le_one.mp
                (lookupSubs_nodup r (some d.cameraId) h) c
            · exact Nat.zero_le 1
        | sysm s => simp
      · simp
    omega

/-! ### The reentrant delivery loop -/

theorem firstUnvisited_none_iff (s v : List ℕ) :
    firstUnvisited s v = none ↔ ∀ c ∈ s, c ∈ v := by
  induction s with
  | nil => simp [firstUnvisited]
  | cons a rest ih =>
      by_cases ha : a ∈ v
      · simp [firstUnvisited, ha, ih]
      · simp [firstUnvisited, ha]

theorem firstUnvisited_some (s v : List ℕ) (c : ℕ)
    (h : firstUnvisited s v = some c) : c ∈ s ∧ c ∉ v := by
  induction s with
  | nil => simp [firstUnvisited] at h
  | cons a rest ih =>
      by_cases ha : a ∈ v
      · rw [firstUnvisited, if_pos ha] at h
        obtain ⟨h1, h2⟩ := ih h
        exact ⟨List.mem_cons_of_mem _ h1, h2⟩
      · rw [firstUnvisited, if_neg ha] at h
        obtain rfl := Option.some.injEq .. ▸ h
        exact ⟨List.mem_cons_self _ _, ha⟩

theorem lookupSubs_dispose_subset (r : Registry) (t t' : Topic) (c' : ℕ)
    (h : WF r) : lookupSubs (dispose r t' c') t ⊆ lookupSubs r t := by
  by_cases ht : t = t'
  · subst ht
    rw [lookupSubs_dispose_self r t c' h]
    exact setDelete_subset _ _
  · rw [lookupSubs_dispose_ne r c' ht]
    exact fun x hx => hx

theorem applyDisposals_WF (l : List (Topic × ℕ)) (r : Registry) (h : WF r) :
    WF (applyDisposals r l) := by
  induction l generalizing r with
  | nil => exact h
  | cons p rest ih =>
      obtain ⟨pt, pc⟩ := p
      exact ih _ (WF_dispose r pt pc h)

theorem applyDisposals_lookup_subset (l : List (Topic × ℕ)) (r : Registry)
    (t : Topic) (h : WF r) :
    lookupSubs (applyDisposals r l) t ⊆ lookupSubs r t := by
  induction l generalizing r with
  | nil => exact fun _ hx => hx
  | cons p rest ih =>
      obtain ⟨pt, pc⟩ := p
      exact fun x hx =>
        lookupSubs_dispose_subset r t pt pc h
          (ih _ (WF_dispose r pt pc h) hx)

theorem forEachLoop_spec (eff : ℕ → List (Topic × ℕ)) (t : Topic) :
    ∀ (fuel : ℕ) (r : Registry) (v : List ℕ), WF r → v.Nodup →
      WF (forEachLoop eff t fuel r v).1 ∧
      (forEachLoop eff t fuel r v).2.Nodup ∧
      (∀ c ∈ (forEachLoop eff t fuel r v).2, c ∈ v ∨ c ∈ lookupSubs r t) ∧
      (∀ c ∈ lookupSubs (forEachLoop eff t fuel r v).1 t, c ∈ lookupSubs r t) ∧
      ((∀ c ∈ lookupSubs (forEachLoop eff t fuel r v).1 t,
          c ∈ (forEachLoop eff t fuel r v).2) ∨
        (forEachLoop eff t fuel r v).2.length = v.length + fuel) := by
  intro fuel
  induction fuel with
  | zero =>
      intro r v hr hv
      exact ⟨hr, hv, fun c hc => Or.inl hc, fun c hc => hc, Or.inr rfl⟩
  | succ fuel ih =>
      intro r v hr hv
      cases hfu : firstUnvisited (lookupSubs r t) v with
      | none =>
          simp only [forEachLoop, hfu]
          refine ⟨hr, hv, fun c hc => Or.inl hc, fun c hc => hc, Or.inl ?_⟩
          exact fun c hc => (firstUnvisited_none_iff _ _).mp hfu c hc
      | some c =>
          have hc := firstUnvisited_some _ _ c hfu
          have hr1 : WF (applyDisposals r (eff c)) := applyDisposals_WF _ r hr
          have hv1 : (v ++ [c]).Nodup := by
            refine List.Nodup.append hv (by simp) ?_
            intro a ha hb
            simp at hb
            subst hb
            exact hc.2 ha
          have hsub : lookupSubs (applyDisposals r (eff c)) t ⊆ lookupSubs r t :=
            applyDisposals_lookup_subset _ r t hr
          obtain ⟨ihWF, ihNodup, ihMem, ihSub, ihDisj⟩ :=
            ih (applyDisposals r (eff c)) (v ++ [c]) hr1 hv1
          simp only [forEachLoop, hfu]
          refine ⟨ihWF, ihNodup, ?_, ?_, ?_⟩
          · intro c' hc'
            rcases ihMem c' hc' with h' | h'
            · rcases List.mem_append.mp h' with h'' | h''
              · exact Or.inl h''
              · simp at h''
                subst h''
                exact Or.inr hc.1
            · exact Or.inr (hsub h')
          · exact fun c' hc' => hsub (ihSub c' hc')
          · rcases ihDisj with h' | h'
            · exact Or.inl h'
            · refine Or.inr ?_
              rw [h']
              simp
              omega

theorem publishTopic_spec (eff : ℕ → List (Topic × ℕ)) (t : Topic)
    (r : Registry) (h : WF r) :
    (publishTopic eff t r).2.Nodup ∧
    (∀ c ∈ (publishTopic eff t r).2, c ∈ lookupSubs r t) ∧
    (∀ c ∈ lookupSubs (publishTopic eff t r).1 t, c ∈ (publishTopic eff t r).2) := by
  unfold publishTopic
  obtain ⟨hWF, hNodup, hMem, hSub, hDisj⟩ :=
    forEachLoop_spec eff t (lookupSubs r t).length r [] h List.nodup_nil
  have hMem' : ∀ c ∈ (forEachLoop eff t (lookupSubs r t).length r []).2,
      c ∈ lookupSubs r t := by
    intro c hc
    rcases hMem c hc with h' | h'
    · simp at h'
    · exact h'
  refine ⟨hNodup, hMem', ?_⟩
  rcases hDisj with h' | h'
  · exact h'
  · have hs0 : (lookupSubs r t).Nodup := lookupSubs_nodup r t h
    have hlen : (forEachLoop eff t (lookupSubs r t).length r []).2.length
        = (lookupSubs r t).length := by
      simpa using h'
    have hsubfin : (forEachLoop eff t (lookupSubs r t).length r []).2.toFinset
        ⊆ (lookupSubs r t).toFinset := by
      intro a ha
      rw [List.mem_toFinset] at ha ⊢
      exact hMem' a ha
    have hcard : (lookupSubs r t).toFinset.card
        ≤ (forEachLoop eff t (lookupSubs r t).length r []).2.toFinset.card := by
      rw [List.toFinset_card_of_nodup hs0, List.toFinset_card_of_nodup hNodup, hlen]
    have heq := Finset.eq_of_subset_of_card_le hsubfin hcard
    intro c hc
    have h1 : c ∈ (lookupSubs r t).toFinset := by
      rw [List.mem_toFinset]
      exact hSub c hc
    rw [← heq, List.mem_toFinset] at h1
    exact h1

/-! ### Stream player backoff helpers -/

theorem backoffDelayMs_eq (n : ℕ) : backoffDelayMs n = 1000 * min (2 ^ n) 30 := by
  unfold backoffDelayMs
  generalize (2 : ℕ) ^ n = a
  rcases Nat.le_total a 30 with hle | hle
  · rw [Nat.min_eq_left (by omega), Nat.min_eq_left hle]
    omega
  · rw [Nat.min_eq_right (by omega), Nat.min_eq_right hle]

theorem failCycles_retryCount : ∀ (k : ℕ) (st : PlayerState),
    (failCycles k st).retryCount = st.retryCount + k := by
  intro k
  induction k with
  | zero => intro st; simp [failCycles]
  | succ k ih =>
      intro st
      rw [failCycles, ih]
      simp [reconnectTimerFires, handleError, attemptReconnect]
      omega

/-! ## Claims -/

/-- C1 (code bug in the claimed invariant): pressing confirm once in the
`ready` state and letting the 200 ms timeout fire yields exactly one
submission `(task_123, verified, "car")` — but a second confirm input issued
inside the 200 ms feedback window, before the first timeout has fired, passes
the `!task || mutation.isPending` guard (the mutation is not yet pending) and
schedules a second timeout, so two identical ValidationSubmissions are sent
for the same task, contradicting the claimed hard no-double-submission
invariant. -/
theorem claim_C1_double_submission_at_failing_input :
    (fireTimeout (handleValidation
        (readyState ⟨"task_123", "/img.jpg", "car", 19/20, (1/5, 1/5, 1/5, 1/5)⟩)
        true)).sent
      = [⟨"task_123", true, "car"⟩] ∧
    (fireTimeout (fireTimeout (handleValidation (handleValidation
        (readyState ⟨"task_123", "/img.jpg", "car", 19/20, (1/5, 1/5, 1/5, 1/5)⟩)
        true) true))).sent
      = [⟨"task_123", true, "car"⟩, ⟨"task_123", true, "car"⟩] := by
  constructor
  · decide
  · decide

/-- C2: `broadcast` delivers every event (camera-scoped or system) to every
wildcard subscriber; a subscriber registered under a camera identifier is
invoked exactly when the event is camera-scoped and carries that identifier;
and each subscription receives the event at most once. -/
theorem claim_C2_broadcast_routing (r : Registry) (e : AppEvent) (h : WF r) :
    (∀ c ∈ lookupSubs r none, ((none : Topic), c) ∈ broadcastDeliveries r e) ∧
    (∀ (id : String) (c : ℕ),
      ((some id : Topic), c) ∈ broadcastDeliveries r e ↔
        c ∈ lookupSubs r (some id) ∧ e.eventType ≠ EventType.system ∧
          e.cameraIdOf = some id) ∧
    (∀ (t : Topic) (c : ℕ), (broadcastDeliveries r e).count (t, c) ≤ 1) := by
  refine ⟨?_, ?_, fun t c => broadcastDeliveries_count_le_one r e h t c⟩
  · intro c hc
    unfold broadcastDeliveries
    exact List.mem_append_left _ (List.mem_map.mpr ⟨c, hc, rfl⟩)
  · intro id c
    constructor
    · intro hm
      unfold broadcastDeliveries at hm
      rw [List.mem_append] at hm
      rcases hm with hm | hm
      · obtain ⟨x, _, hxx⟩ := List.mem_map.mp hm
        simp at hxx
      · split at hm
        · rename_i hcond
          cases e with
          | det d =>
              obtain ⟨x, hx, hxx⟩ := List.mem_map.mp hm
              obtain ⟨h1, h2⟩ := Prod.mk.injEq .. ▸ hxx
              rw [Option.some.injEq] at h1
              subst h2
              refine ⟨?_, hcond, ?_⟩
              · rw [← h1]
                exact hx
              · simp [AppEvent.cameraIdOf, h1]
          | sysm s => simp [AppEvent.eventType] at hcond
        · simp at hm
    · rintro ⟨hmem, hne, hcam⟩
      cases e with
      | det d =>
          simp [AppEvent.cameraIdOf] at hcam
          unfold broadcastDeliveries
          refine List.mem_append_right _ ?_
          rw [if_pos hne]
          subst hcam
          exact List.mem_map.mpr ⟨c, hmem, rfl⟩
      | sysm s => simp [AppEvent.cameraIdOf] at hcam

/-- C2 witness: a concrete two-subscriber registry and a detection event for
camera `cam_01`. -/
theorem claim_C2_broadcast_routing_witness :
    ((none : Topic), 0) ∈ broadcastDeliveries
        [((none : Topic), [0]), ((some "cam_01" : Topic), [1])]
        (.det ⟨"evt_1", "cam_01", .detection, "Vehicle detected", []⟩) ∧
    (((some "cam_01" : Topic), 1) ∈ broadcastDeliveries
        [((none : Topic), [0]), ((some "cam_01" : Topic), [1])]
        (.det ⟨"evt_1", "cam_01", .detection, "Vehicle detected", []⟩) ↔
      1 ∈ lookupSubs [((none : Topic), [0]), ((some "cam_01" : Topic), [1])]
          (some "cam_01") ∧
        (AppEvent.det ⟨"evt_1", "cam_01", .detection, "Vehicle detected", []⟩).eventType
            ≠ EventType.system ∧
        (AppEvent.det ⟨"evt_1", "cam_01", .detection, "Vehicle detected", []⟩).cameraIdOf
            = some "cam_01") ∧
    (broadcastDeliveries [((none : Topic), [0]), ((some "cam_01" : Topic), [1])]
        (.det ⟨"evt_1", "cam_01", .detection, "Vehicle detected", []⟩)).count
        ((some "cam_01" : Topic), 1) ≤ 1 := by
  have h := claim_C2_broadcast_routing
    [((none : Topic), [0]), ((some "cam_01" : Topic), [1])]
    (.det ⟨"evt_1", "cam_01", .detection, "Vehicle detected", []⟩) (by decide)
  exact ⟨h.1 0 (by decide), h.2.1 "cam_01" 1, h.2.2 (some "cam_01") 1⟩

/-- C3 counterexample: the interface does not distinguish the empty-queue
condition from a transport failure.  With loading over, the empty-queue state
(`isError = false`, `task = null`) renders exactly the same view as the
failure state (`isError = true`), namely the retry-bearing
"Failed to load task or queue empty." banner — there is no separate non-error
"no tasks" view. -/
theorem claim_C3_counterexample :
    triageRender false false none = triageRender false true none ∧
    triageRender false false none
      = TriageView.fallbackView "Failed to load task or queue empty." true := by
  exact ⟨rfl, rfl⟩

/-- C3 amended: the data layer distinguishes the two conditions —
`api.fetchNextImage` resolves to `null` for an empty queue and rethrows a
transport failure — but `TriageInterface` collapses both into the single
fallback view with the combined message and a manual-retry button. -/
theorem claim_C3_amended (mb : ℚ × ℚ × ℚ × ℚ) (mc : ℚ) (b : Bool) :
    fetchNextImage (.ok []) mb mc = .ok none ∧
    fetchNextImage (.error ()) mb mc = .error () ∧
    triageRender false b none
      = TriageView.fallbackView "Failed to load task or queue empty." true ∧
    triageRender false b none = triageRender false true none := by
  refine ⟨rfl, rfl, ?_, ?_⟩
  · cases b <;> rfl
  · cases b <;> rfl

/-- C4: the reconnect delay after a fatal transport fault is
`min(2^attempt, 30)` seconds (1s, 2s, 4s, 8s, 16s, 30s, 30s, ...); the
attempt counter advances by one per scheduled-and-executed retry cycle and
resets to zero on successful reconnection (`handleReady`). -/
theorem claim_C4_backoff :
    (∀ n, backoffDelayMs n = 1000 * min (2 ^ n) 30) ∧
    (List.range 7).map backoffDelayMs
      = [1000, 2000, 4000, 8000, 16000, 30000, 30000] ∧
    (∀ k, (failCycles k freshPlayer).retryCount = k) ∧
    (∀ k, (handleError (failCycles k freshPlayer)).reconnectTimeout
      = some (1000 * min (2 ^ k) 30)) ∧
    (∀ st, (reconnectTimerFires (handleError st)).retryCount = st.retryCount + 1) ∧
    (∀ st, (handleReady st).retryCount = 0) := by
  refine ⟨backoffDelayMs_eq, by decide, ?_, ?_, ?_, ?_⟩
  · intro k
    rw [failCycles_retryCount]
    simp [freshPlayer]
  · intro k
    have h1 : (failCycles k freshPlayer).retryCount = k := by
      rw [failCycles_retryCount]
      simp [freshPlayer]
    simp [handleError, attemptReconnect, h1, backoffDelayMs_eq]
  · intro st
    simp [reconnectTimerFires, handleError, attemptReconnect]
  · intro st
    simp [handleReady]

/-- C5: the unsubscribe closure removes exactly the subscribed callback
(subscribe-then-dispose restores the registry, so publishing any event never
invokes the callback again), a second call of the disposer is a no-op, and
removing the last callback of a topic removes the topic's entry (the registry
keeps no empty entries). -/
theorem claim_C5_unsubscribe (r : Registry) (t : Topic) (c : ℕ) (h : WF r)
    (hc : ∀ t', c ∉ lookupSubs r t') :
    dispose (subscribe r t c) t c = r ∧
    (∀ (e : AppEvent) (t' : Topic),
      (t', c) ∉ broadcastDeliveries (dispose (subscribe r t c) t c) e) ∧
    dispose (dispose r t c) t c = dispose r t c ∧
    (∀ p ∈ dispose r t c, p.2 ≠ []) := by
  have h1 := dispose_subscribe r t c h (hc t)
  refine ⟨h1, ?_, dispose_idem r t c h, ?_⟩
  · intro e t' hmem
    rw [h1] at hmem
    exact hc t' (mem_broadcastDeliveries r e t' c hmem)
  · intro p hp
    exact (WF_dispose r t c h).2.2 p hp

/-- C5 witness: subscribing callback 7 under `cam_01` on a registry that only
holds callback 5 under the wildcard, then disposing, restores the registry;
the disposer is idempotent. -/
theorem claim_C5_unsubscribe_witness :
    dispose (subscribe [((none : Topic), [5])] (some "cam_01") 7) (some "cam_01") 7
      = [((none : Topic), [5])] ∧
    dispose (dispose [((none : Topic), [5])] (some "cam_01") 7) (some "cam_01") 7
      = dispose [((none : Topic), [5])] (some "cam_01") 7 := by
  have h := claim_C5_unsubscribe [((none : Topic), [5])] (some "cam_01") 7
    (by decide) ?_
  · exact ⟨h.1, h.2.2.1⟩
  · intro t'
    by_cases ht : (none : Topic) = t'
    · subst ht
      simp [lookupSubs, regGet]
    · simp [lookupSubs, regGet, ht]

/-- C6 counterexample: two subscribers (1 and 2, in insertion order) under
`cam_01`; during delivery, subscriber 1's callback unsubscribes its sibling 2.
Per the live `Set.forEach` semantics, 2 — though registered when the publish
began — is skipped and never receives the event: the invocation log is `[1]`. -/
theorem claim_C6_counterexample :
    (publishTopic (fun c => if c = 1 then [((some "cam_01" : Topic), 2)] else [])
        (some "cam_01") [((some "cam_01" : Topic), [1, 2])]).2 = [1] ∧
    2 ∈ lookupSubs [((some "cam_01" : Topic), [1, 2])] (some "cam_01") ∧
    2 ∉ (publishTopic (fun c => if c = 1 then [((some "cam_01" : Topic), 2)] else [])
        (some "cam_01") [((some "cam_01" : Topic), [1, 2])]).2 := by
  refine ⟨by decide, by decide, by decide⟩

/-- C6 amended: unsubscription during delivery never corrupts the iteration —
no subscriber is invoked twice for one event, only subscribers registered when
the publish began are invoked, and every subscriber still registered at the
end of the delivery did receive the event; but a sibling unsubscribed during
delivery before being visited is skipped for that event. -/
theorem claim_C6_amended (eff : ℕ → List (Topic × ℕ)) (t : Topic) (r : Registry)
    (h : WF r) :
    (publishTopic eff t r).2.Nodup ∧
    (∀ c ∈ (publishTopic eff t r).2, c ∈ lookupSubs r t) ∧
    (∀ c ∈ lookupSubs (publishTopic eff t r).1 t, c ∈ (publishTopic eff t r).2) :=
  publishTopic_spec eff t r h

/-- C6 amended witness: the delivery log of the counterexample scenario is
duplicate-free. -/
theorem claim_C6_amended_witness :
    (publishTopic (fun c => if c = 1 then [((some "cam_01" : Topic), 2)] else [])
        (some "cam_01") [((some "cam_01" : Topic), [1, 2])]).2.Nodup :=
  (claim_C6_amended (fun c => if c = 1 then [((some "cam_01" : Topic), 2)] else [])
    (some "cam_01") [((some "cam_01" : Topic), [1, 2])] (by decide)).1

/-- C7 counterexample: the ingress handler only guards against `JSON.parse`
failures; a payload that parses as JSON but fails the expected event schema is
not dropped.  `{"foo": 1}` is broadcast to the wildcard subscriber, and
`{"eventType": "detection", "cameraId": null}` is even delivered to the
wildcard subscriber twice — its `null` `cameraId` is the wildcard registry key,
so the camera leg hits the wildcard set again. -/
theorem claim_C7_counterexample :
    isValidEventJson (JsonVal.obj [("foo", JsonVal.num 1)]) = false ∧
    (onMessage [((none : Topic), [0])]
        (some (JsonVal.obj [("foo", JsonVal.num 1)]))).1
      = [((none : Topic), 0)] ∧
    isValidEventJson
        (JsonVal.obj [("eventType", JsonVal.str "detection"),
          ("cameraId", JsonVal.null)]) = false ∧
    (onMessage [((none : Topic), [0])]
        (some (JsonVal.obj [("eventType", JsonVal.str "detection"),
          ("cameraId", JsonVal.null)]))).1
      = [((none : Topic), 0), ((none : Topic), 0)] := by
  exact ⟨rfl, rfl, rfl, rfl⟩

/-- C7 amended: only messages that fail JSON parsing are logged and dropped —
for those, nothing escapes the handler and nothing is delivered, and the
surrounding stream keeps being processed unaffected; a message that parses as
JSON is broadcast as-is, without schema validation (for a payload whose
`cameraId` is JSON `null`, the camera leg's `get(null)` hits the wildcard set
a second time). -/
theorem claim_C7_amended (r : Registry) (j : JsonVal)
    (msgs1 msgs2 : List (Option JsonVal)) :
    onMessage r none = ([], true) ∧
    (onMessage r (some j)).1 = deliverRaw r j ∧
    processAll r (msgs1 ++ none :: msgs2)
      = processAll r msgs1 ++ [[]] ++ processAll r msgs2 := by
  refine ⟨rfl, rfl, ?_⟩
  simp [processAll, onMessage]

/-- C8: each detection's rectangle is drawn at origin `(x·width, y·height)`
with size `(w·width, h·height)`, and its label text carries the class name and
the confidence times 100 rounded to the nearest integer percent. -/
theorem claim_C8_overlay_geometry (measure : String → ℚ) (dets : List Detection)
    (w h : ℚ) (d : Detection) (hd : d ∈ dets) :
    DrawCmd.strokeRect (d.bx * w) (d.by' * h) (d.bw * w) (d.bh * h) ∈
      redraw measure dets w h ∧
    DrawCmd.fillText (d.cls ++ " " ++ toString (round (d.confidence * 100)) ++ "%")
      (d.bx * w + 4) (d.by' * h - 4) ∈ redraw measure dets w h := by
  have hne : dets ≠ [] := by rintro rfl; simp at hd
  constructor
  · simp [redraw, List.isEmpty_iff, hne, List.mem_flatten]
    exact ⟨d, hd, by simp [drawDetection]⟩
  · simp [redraw, List.isEmpty_iff, hne, List.mem_flatten]
    exact ⟨d, hd, by simp [drawDetection, labelText]⟩

/-- C8 witness: bbox `[0.2, 0.2, 0.2, 0.2]` on a 640×360 surface yields the
rectangle with origin (128, 72) and size 128×72. -/
theorem claim_C8_overlay_geometry_witness :
    DrawCmd.strokeRect 128 72 128 72 ∈
      redraw (fun _ => 0) [⟨"car", 17/20, 1/5, 1/5, 1/5, 1/5⟩] 640 360 := by
  have h := (claim_C8_overlay_geometry (fun _ => 0)
    [⟨"car", 17/20, 1/5, 1/5, 1/5, 1/5⟩] 640 360
    ⟨"car", 17/20, 1/5, 1/5, 1/5, 1/5⟩ (by simp)).1
  norm_num at h
  exact h

/-- C9 counterexample: the renderer does not clamp out-of-range normalized
coordinates.  For bbox `[1.5, 0.2, 0.2, 0.2]` on a 640×360 surface it draws
the rectangle at x-origin 960, beyond the surface's right edge (640), instead
of a rectangle clamped to the visible surface. -/
theorem claim_C9_counterexample :
    DrawCmd.strokeRect 960 72 128 72 ∈
      redraw (fun _ => 0) [⟨"car", 9/10, 3/2, 1/5, 1/5, 1/5⟩] 640 360 ∧
    ¬ ((960 : ℚ) ≤ 640) := by
  constructor
  · simp [redraw, drawDetection]
    norm_num
  · norm_num

/-- C9 amended: the redraw is total on out-of-range normalized coordinates
(it never throws) and always draws exactly the unclamped scaled rectangle
`(x·w, y·h, w·w, h·h)`; any visual bounding comes from the canvas surface
itself, not from coordinate clamping in the renderer. -/
theorem claim_C9_amended (measure : String → ℚ) (d : Detection) (w h : ℚ) :
    DrawCmd.strokeRect (d.bx * w) (d.by' * h) (d.bw * w) (d.bh * h) ∈
      redraw measure [d] w h ∧
    ∀ x y rw' rh', DrawCmd.strokeRect x y rw' rh' ∈ redraw measure [d] w h →
      x = d.bx * w ∧ y = d.by' * h ∧ rw' = d.bw * w ∧ rh' = d.bh * h := by
  constructor
  · simp [redraw, drawDetection]
  · intro x y rw' rh' hm
    simp [redraw, drawDetection] at hm
    tauto

/-- C9 amended witness: the out-of-range bbox `[1.5, 0.2, 0.2, 0.2]` is drawn
unclamped at x-origin 960 = 1.5·640. -/
theorem claim_C9_amended_witness :
    DrawCmd.strokeRect 960 72 128 72 ∈
      redraw (fun _ => 0) [⟨"car", 9/10, 3/2, 1/5, 1/5, 1/5⟩] 640 360 ∧
    (960 : ℚ) = 3/2 * 640 := by
  have h := claim_C9_amended (fun _ => 0) ⟨"car", 9/10, 3/2, 1/5, 1/5, 1/5⟩ 640 360
  have h1 := h.1
  norm_num at h1
  exact ⟨h1, (h.2 960 72 128 72 h1).1⟩

/-- C10: when a scheduled decision fires, the submission sent carries the
captured task's id and flag, with `correct_label` equal to the task's current
label on an accepting decision and the fixed string `"rejected_class"` on a
rejection. -/
theorem claim_C10_rejected_label (st : TriageState) (task : TriageTask) (v : Bool)
    (rest : List (TriageTask × Bool)) (h : st.timeouts = (task, v) :: rest) :
    (fireTimeout st).sent = st.sent ++ [submitValidation task.id v task.currentLabel] ∧
    (submitValidation task.id false task.currentLabel).correct_label
      = "rejected_class" ∧
    (submitValidation task.id true task.currentLabel).correct_label
      = task.currentLabel := by
  refine ⟨?_, rfl, rfl⟩
  simp only [fireTimeout, h]

/-- C10 witness: a rejection of task `t1` labelled `cat` sends
`correct_label = "rejected_class"`. -/
theorem claim_C10_rejected_label_witness :
    (fireTimeout { task := none, isPending := false, feedback := none,
                   timeouts := [(⟨"t1", "/u.jpg", "cat", 1/2, (0, 0, 0, 0)⟩, false)],
                   sent := [], validatedCount := 0, invalidations := 0 }).sent
      = [⟨"t1", false, "rejected_class"⟩] ∧
    (submitValidation "t1" false "cat").correct_label = "rejected_class" := by
  have h := claim_C10_rejected_label
    { task := none, isPending := false, feedback := none,
      timeouts := [(⟨"t1", "/u.jpg", "cat", 1/2, (0, 0, 0, 0)⟩, false)],
      sent := [], validatedCount := 0, invalidations := 0 }
    ⟨"t1", "/u.jpg", "cat", 1/2, (0, 0, 0, 0)⟩ false [] rfl
  refine ⟨?_, h.2.1⟩
  rw [h.1]
  rfl

end SmartCityCore
